import Mathlib

/-!
# Verification of the draw-captcha capture-to-scoring pipeline

Shallow embedding of the behavioural-metrics pipeline of the draw-captcha
repository:

* `computeStrokeMetrics` (src/app/draw-captcha/metrics.ts): per-stroke
  kinematic metrics over a list of captured pointer samples;
* the stroke-capture hook (src/unnamed/part_000, `useStrokeCapture`):
  session state, stroke finalisation and the `buildSession` aggregator;
* the `ScoringEngine` (src/app/draw-captcha/scoring.ts): registration order,
  per-algorithm failure isolation, and the confidence-weighted combined score.

JavaScript numbers are modelled as real numbers `ℝ`; a scoring algorithm
that may throw is modelled as a function into `Except String ScoringResult`,
with `Except.error` standing for a thrown exception.  The insertion-ordered
JavaScript `Map` is modelled as an association list whose `set` keeps the
position of the first insertion of a key and overwrites its value.
-/

noncomputable section

/-- Input modality tag of a captured point (`types.ts`, `pointerType`). -/
inductive PointerType where
  | mouse
  | touch
  | pen
deriving DecidableEq, Repr

/-- One sampled instant of contact (`types.ts`, `CapturePoint`). -/
structure CapturePoint where
  x : ℝ
  y : ℝ
  timestamp : ℝ
  pressure : ℝ
  pointerType : PointerType

instance : Inhabited CapturePoint :=
  ⟨{ x := 0, y := 0, timestamp := 0, pressure := 0, pointerType := .mouse }⟩

/-- Computed metrics for a single stroke (`types.ts`, `StrokeMetrics`). -/
structure StrokeMetrics where
  length : ℝ
  duration : ℝ
  avgVelocity : ℝ
  maxVelocity : ℝ
  avgAcceleration : ℝ
  maxAcceleration : ℝ
  directionChanges : ℕ

/-- The all-zero metrics record returned for degenerate strokes. -/
def zeroMetrics : StrokeMetrics :=
  { length := 0, duration := 0, avgVelocity := 0, maxVelocity := 0,
    avgAcceleration := 0, maxAcceleration := 0, directionChanges := 0 }

/-- `Math.atan2 y x` of JavaScript, on real arguments. -/
def atan2 (y x : ℝ) : ℝ :=
  if 0 < x then Real.arctan (y / x)
  else if x < 0 then
    (if 0 ≤ y then Real.arctan (y / x) + Real.pi
     else Real.arctan (y / x) - Real.pi)
  else
    (if 0 < y then Real.pi / 2 else if y < 0 then -(Real.pi / 2) else 0)

/-- Euclidean distance between two captured points (`metrics.ts`, `distance`). -/
def distance (a b : CapturePoint) : ℝ :=
  Real.sqrt ((b.x - a.x) ^ 2 + (b.y - a.y) ^ 2)

/-- Angle in radians from point `a` to point `b` (`metrics.ts`, `angle`). -/
def angle (a b : CapturePoint) : ℝ :=
  atan2 (b.y - a.y) (b.x - a.x)

/-- Mutable loop state of the `computeStrokeMetrics` loop in `metrics.ts`:
`totalLength`, the `velocities` and `accelerations` arrays (in push order),
the `directionChanges` counter and `prevAngle`. -/
structure MetricsState where
  totalLength : ℝ
  velocities : List ℝ
  accelerations : List ℝ
  directionChanges : ℕ
  prevAngle : Option ℝ

/-- One iteration of the `for` loop of `computeStrokeMetrics` over the
consecutive pair `(p, q)` (`metrics.ts` lines 38–62). -/
def metricsStep (s : MetricsState) (p q : CapturePoint) : MetricsState :=
  let dist := distance p q
  let dt := q.timestamp - p.timestamp
  let totalLength := s.totalLength + dist
  let velocities :=
    if 0 < dt then s.velocities ++ [dist / dt] else s.velocities
  let accelerations :=
    if 0 < dt then
      match s.velocities.getLast? with
      | some vPrev => s.accelerations ++ [|dist / dt - vPrev| / dt]
      | none => s.accelerations
    else s.accelerations
  let currentAngle := angle p q
  let directionChanges :=
    match s.prevAngle with
    | some prev =>
        let rawDiff := |currentAngle - prev|
        let angleDiff :=
          if Real.pi < rawDiff then 2 * Real.pi - rawDiff else rawDiff
        if Real.pi / 6 < angleDiff then s.directionChanges + 1
        else s.directionChanges
    | none => s.directionChanges
  { totalLength := totalLength
    velocities := velocities
    accelerations := accelerations
    directionChanges := directionChanges
    prevAngle := some currentAngle }

/-- `arr.reduce((a, b) => a + b, 0) / arr.length` guarded by
`arr.length > 0 ? … : 0`, the averaging idiom of `metrics.ts` and of
`buildSession`. -/
def listMean (l : List ℝ) : ℝ :=
  if l.isEmpty then 0 else l.sum / l.length

/-- `arr.length > 0 ? Math.max(...arr) : 0` of `metrics.ts`. -/
def listMax : List ℝ → ℝ
  | [] => 0
  | x :: xs => xs.foldl max x

/-- The list of consecutive pairs of a point list: the pairs visited by the
index loop `for (let i = 1; i < points.length; i++)`. -/
def segs (points : List CapturePoint) : List (CapturePoint × CapturePoint) :=
  points.zip points.tail

/-- `computeStrokeMetrics` of `metrics.ts`: behavioural metrics of one
stroke.  Lists of fewer than two points yield the all-zero record. -/
def computeStrokeMetrics (points : List CapturePoint) : StrokeMetrics :=
  if points.length < 2 then zeroMetrics
  else
    let st := (segs points).foldl (fun s pq => metricsStep s pq.1 pq.2)
      { totalLength := 0, velocities := [], accelerations := [],
        directionChanges := 0, prevAngle := none }
    { length := st.totalLength
      duration := (points.getLastD default).timestamp -
        (points.headD default).timestamp
      avgVelocity := listMean st.velocities
      maxVelocity := listMax st.velocities
      avgAcceleration := listMean st.accelerations
      maxAcceleration := listMax st.accelerations
      directionChanges := st.directionChanges }

/-- A single drawing stroke (`types.ts`, `Stroke`). -/
structure Stroke where
  id : ℕ
  points : List CapturePoint
  startTime : ℝ
  endTime : ℝ
  metrics : StrokeMetrics

instance : Inhabited Stroke :=
  ⟨{ id := 0, points := [], startTime := 0, endTime := 0,
     metrics := zeroMetrics }⟩

/-- Full session data for one CAPTCHA interaction
(`types.ts`, `CaptchaSession`). -/
structure CaptchaSession where
  sessionId : String
  prompt : String
  strokes : List Stroke
  startTime : ℝ
  endTime : ℝ
  startTimestamp : ℝ
  canvasWidth : ℝ
  canvasHeight : ℝ
  totalDuration : ℝ
  strokeCount : ℕ
  pausesBetweenStrokes : List ℝ
  totalPathLength : ℝ
  avgVelocity : ℝ

/-- The mutable state of the `useStrokeCapture` hook: the `strokes` React
state, the `isDrawing` flag, and the `currentPoints`, `strokeId`,
`sessionStart` and `sessionTimestamp` refs. -/
structure CaptureState where
  strokes : List Stroke
  isDrawing : Bool
  currentPoints : List CapturePoint
  strokeId : ℕ
  sessionStart : ℝ
  sessionTimestamp : ℝ

namespace CaptureState

/-- `startSession`: reset stroke state and begin a new capture session.
`now` is `performance.now()` and `nowWall` is `Date.now()`. -/
def startSession (s : CaptureState) (now nowWall : ℝ) : CaptureState :=
  { s with
    strokes := [], strokeId := 0, sessionStart := now,
    sessionTimestamp := nowWall }

/-- `beginStroke`: begin capturing a new stroke. -/
def beginStroke (s : CaptureState) : CaptureState :=
  { s with isDrawing := true, currentPoints := [] }

/-- `addPoint`: append a point to the current stroke. -/
def addPoint (s : CaptureState) (p : CapturePoint) : CaptureState :=
  { s with currentPoints := s.currentPoints ++ [p] }

/-- `endStroke`: finalise the current stroke and compute its metrics.
A gesture of fewer than two points is discarded (the early `return`; in
that case neither `strokes` nor `strokeId` changes). -/
def endStroke (s : CaptureState) : CaptureState :=
  let points := s.currentPoints
  let s := { s with isDrawing := false, currentPoints := [] }
  if points.length < 2 then s
  else
    { s with
      strokes := s.strokes ++
        [{ id := s.strokeId
           points := points
           startTime := (points.headD default).timestamp
           endTime := (points.getLastD default).timestamp
           metrics := computeStrokeMetrics points }]
      strokeId := s.strokeId + 1 }

/-- `undo`: remove the last stroke. -/
def undo (s : CaptureState) : CaptureState :=
  { s with strokes := s.strokes.dropLast }

/-- `clear`: remove all strokes. -/
def clear (s : CaptureState) : CaptureState :=
  { s with strokes := [] }

/-- `buildSession`: build the final `CaptchaSession` object.  `sessionId`
stands for the fresh `crypto.randomUUID()` value and `endTime` for the
`performance.now()` reading at submission. -/
def buildSession (s : CaptureState) (sessionId prompt : String)
    (canvasWidth canvasHeight endTime : ℝ) : CaptchaSession :=
  let startTime := s.sessionStart
  let strokes := s.strokes
  let pauses := (strokes.zip strokes.tail).map
    (fun ab => ab.2.startTime - ab.1.endTime)
  let totalPathLength := strokes.foldl
    (fun sum st => sum + st.metrics.length) 0
  let velocities := strokes.map (fun st => st.metrics.avgVelocity)
  { sessionId := sessionId
    prompt := prompt
    strokes := strokes
    startTime := startTime
    endTime := endTime
    startTimestamp := s.sessionTimestamp
    canvasWidth := canvasWidth
    canvasHeight := canvasHeight
    totalDuration := endTime - startTime
    strokeCount := strokes.length
    pausesBetweenStrokes := pauses
    totalPathLength := totalPathLength
    avgVelocity := listMean velocities }

end CaptureState

/-- One user interaction with the capture hook after the session started. -/
inductive CaptureEvent where
  | beginStroke
  | addPoint (p : CapturePoint)
  | endStroke
  | undo
  | clear

/-- Apply one capture event to the hook state. -/
def applyEvent (s : CaptureState) : CaptureEvent → CaptureState
  | .beginStroke => s.beginStroke
  | .addPoint p => s.addPoint p
  | .endStroke => s.endStroke
  | .undo => s.undo
  | .clear => s.clear

/-- Run a sequence of capture events from a given hook state. -/
def runEvents (s : CaptureState) (evs : List CaptureEvent) : CaptureState :=
  evs.foldl applyEvent s

/-- Result returned by a scoring algorithm (`types.ts`, `ScoringResult`);
`signals` is an insertion-ordered record of named diagnostic values. -/
structure ScoringResult where
  score : ℝ
  confidence : ℝ
  signals : List (String × ℝ)
  details : Option String

/-- A pluggable scoring algorithm (`types.ts`, `ScoringAlgorithm`).  The
`score` function may throw; a thrown exception with message `e` is
modelled as `Except.error e`. -/
structure ScoringAlgorithm where
  name : String
  version : String
  score : CaptchaSession → Except String ScoringResult

/-- The body of the `try`/`catch` around one algorithm invocation in
`ScoringEngine.evaluate`: the algorithm's result on success, and the
synthetic sentinel result when `score` throws. -/
def runAlgorithm (a : ScoringAlgorithm) (session : CaptchaSession) :
    ScoringResult :=
  match a.score session with
  | .ok r => r
  | .error e =>
      { score := -1, confidence := 0, signals := [],
        details := some ("Error: " ++ e) }

/-- `Map.set` of an insertion-ordered JavaScript `Map`, on an association
list: overwriting an existing key keeps its position (that of its first
insertion); a new key is appended. -/
def mapSet (m : List (String × ScoringResult)) (k : String)
    (v : ScoringResult) : List (String × ScoringResult) :=
  if m.any (fun kv => kv.1 == k) then
    m.map (fun kv => if kv.1 == k then (k, v) else kv)
  else m ++ [(k, v)]

namespace ScoringEngine

/-- `ScoringEngine.evaluate`: run every registered algorithm in
registration order and collect named results in a `Map`.  The function is
total: a thrown exception is converted into the sentinel result and never
propagates. -/
def evaluate (algorithms : List ScoringAlgorithm)
    (session : CaptchaSession) : List (String × ScoringResult) :=
  algorithms.foldl
    (fun results a => mapSet results a.name (runAlgorithm a session)) []

/-- `ScoringEngine.getCombinedScore`: confidence-weighted average of all
algorithm scores, skipping sentinel results (`score < 0`); `-1` when the
result map is empty or the total weight is not positive. -/
def getCombinedScore (algorithms : List ScoringAlgorithm)
    (session : CaptchaSession) : ℝ :=
  let results := evaluate algorithms session
  if results.length = 0 then -1
  else
    let sw := results.foldl
      (fun (acc : ℝ × ℝ) kv =>
        if 0 ≤ kv.2.score then
          (acc.1 + kv.2.score * kv.2.confidence, acc.2 + kv.2.confidence)
        else acc)
      (0, 0)
    if 0 < sw.2 then sw.1 / sw.2 else -1

end ScoringEngine

/-! ## Specification-level descriptions of the metrics series

The spec describes the velocity/acceleration series declaratively: a
consecutive-point segment enters the velocity series exactly when its time
delta is positive, accelerations link consecutive velocity entries using
the later segment's time delta, and total length sums over all segments.
These definitions follow that wording; the theorems below relate them to
the imperative loop of `computeStrokeMetrics`. -/

/-- The (velocity, dt) pairs of the segments with positive time delta, in
segment order. -/
def vdtSeries (L : List (CapturePoint × CapturePoint)) : List (ℝ × ℝ) :=
  L.filterMap (fun pq =>
    let dt := pq.2.timestamp - pq.1.timestamp
    if 0 < dt then some (distance pq.1 pq.2 / dt, dt) else none)

/-- The velocity series of a stroke: one entry `d/dt` per segment with
`dt > 0`; segments with `dt ≤ 0` are excluded entirely. -/
def velocitySeries (points : List CapturePoint) : List ℝ :=
  (vdtSeries (segs points)).map Prod.fst

/-- Acceleration entries `|v − v₀| / dt` linking consecutive velocity
entries, threaded through an optional previous velocity. -/
def accelFrom : Option ℝ → List (ℝ × ℝ) → List ℝ
  | _, [] => []
  | none, vdt :: rest => accelFrom (some vdt.1) rest
  | some v0, vdt :: rest => |vdt.1 - v0| / vdt.2 :: accelFrom (some vdt.1) rest

/-- The acceleration series of a stroke. -/
def accelSeries (points : List CapturePoint) : List ℝ :=
  accelFrom none (vdtSeries (segs points))

/-- Direction-change count per the spec: for consecutive segment bearings,
take the absolute difference, wrap into `[0, π]` (raw differences above `π`
become `2π − diff`), and count the wrapped differences exceeding `π/6`.
The first segment has no prior bearing and never counts. -/
def dcountFrom : Option ℝ → List (CapturePoint × CapturePoint) → ℕ
  | _, [] => 0
  | prev, pq :: rest =>
    let a := angle pq.1 pq.2
    (match prev with
     | none => 0
     | some p0 =>
       let rawDiff := |a - p0|
       let d := if Real.pi < rawDiff then 2 * Real.pi - rawDiff else rawDiff
       if Real.pi / 6 < d then 1 else 0) + dcountFrom (some a) rest

/-- Sum of the Euclidean lengths of all segments, including those with
non-positive time delta. -/
def segLengthSum (points : List CapturePoint) : ℝ :=
  ((segs points).map (fun pq => distance pq.1 pq.2)).sum

/-! ## Specification-level description of the combined score -/

/-- The eligible results of a result map: those whose score is `≥ 0` (the
`−1` sentinel is excluded). -/
def eligible (results : List (String × ScoringResult)) : List ScoringResult :=
  (results.map Prod.snd).filter (fun r => decide (0 ≤ r.score))

/-- Total confidence weight `Σ confidence_i` over the eligible results. -/
def combinedWeight (results : List (String × ScoringResult)) : ℝ :=
  ((eligible results).map ScoringResult.confidence).sum

/-- Weighted score sum `Σ (score_i × confidence_i)` over the eligible
results. -/
def combinedNumerator (results : List (String × ScoringResult)) : ℝ :=
  ((eligible results).map (fun r => r.score * r.confidence)).sum

/-- A well-formed scoring result: score in `[0,1]` or the `−1` sentinel,
and confidence in `[0,1]`. -/
def BoundedResult (r : ScoringResult) : Prop :=
  (r.score = -1 ∨ (0 ≤ r.score ∧ r.score ≤ 1)) ∧
    0 ≤ r.confidence ∧ r.confidence ≤ 1

/-! ## Concrete sample inputs used to instantiate the theorems -/

/-- Hook state immediately after a fresh `startSession`. -/
def emptyState : CaptureState :=
  { strokes := [], isDrawing := false, currentPoints := [], strokeId := 0,
    sessionStart := 0, sessionTimestamp := 0 }

/-- A concrete session built from a hook state with no strokes. -/
def sampleSession : CaptchaSession :=
  emptyState.buildSession "session-0" "Draw a star" 500 375 0

/-- A hook state holding a single captured point (a too-short gesture). -/
def oneptState : CaptureState :=
  { emptyState with
    currentPoints :=
      [{ x := 3, y := 4, timestamp := 1, pressure := 0.5,
         pointerType := .mouse }] }

/-- Finalized stroke A of the spec's pause example: ends at time 100. -/
def strokeA : Stroke :=
  { id := 0, points := [], startTime := 0, endTime := 100,
    metrics := zeroMetrics }

/-- Finalized stroke B of the spec's pause example: starts at time 150. -/
def strokeB : Stroke :=
  { id := 1, points := [], startTime := 150, endTime := 200,
    metrics := zeroMetrics }

/-- A hook state holding the two strokes of the pause example. -/
def twoStrokeState : CaptureState :=
  { emptyState with strokes := [strokeA, strokeB], strokeId := 2 }

/-- P0 = (0, 0) at t = 0 of the spec's right-angle example. -/
def P0 : CapturePoint :=
  { x := 0, y := 0, timestamp := 0, pressure := 0.5, pointerType := .mouse }

/-- P1 = (10, 0) at t = 10 of the spec's right-angle example. -/
def P1 : CapturePoint :=
  { x := 10, y := 0, timestamp := 10, pressure := 0.5, pointerType := .mouse }

/-- P2 = (10, 10) at t = 20 of the spec's right-angle example. -/
def P2 : CapturePoint :=
  { x := 10, y := 10, timestamp := 20, pressure := 0.5,
    pointerType := .mouse }

/-- The three-point right-angle stroke of the spec. -/
def threePoints : List CapturePoint := [P0, P1, P2]

/-- Concrete algorithm returning score 0.2 with confidence 1.0. -/
def algoA : ScoringAlgorithm :=
  { name := "A", version := "0.1.0",
    score := fun _ => Except.ok
      { score := 0.2, confidence := 1.0, signals := [], details := none } }

/-- Concrete algorithm returning score 0.8 with confidence 0.5. -/
def algoB : ScoringAlgorithm :=
  { name := "B", version := "0.1.0",
    score := fun _ => Except.ok
      { score := 0.8, confidence := 0.5, signals := [], details := none } }

/-- Concrete algorithm whose `score` always throws. -/
def algoFail : ScoringAlgorithm :=
  { name := "failing", version := "0.1.0",
    score := fun _ => Except.error "boom" }

/-- First-registered algorithm of a duplicate-name pair. -/
def dupA : ScoringAlgorithm :=
  { name := "dup", version := "0.1.0",
    score := fun _ => Except.ok
      { score := 0.2, confidence := 1.0, signals := [], details := none } }

/-- Last-registered algorithm of a duplicate-name pair. -/
def dupB : ScoringAlgorithm :=
  { name := "dup", version := "0.2.0",
    score := fun _ => Except.ok
      { score := 0.8, confidence := 0.5, signals := [], details := none } }

end

/-! ## The metrics loop computes the declarative series -/

/-- Unfolding of the `computeStrokeMetrics` loop: starting from an
arbitrary loop state, folding `metricsStep` over a segment list adds the
segment lengths to `totalLength`, appends the positive-`dt` velocity
series, appends the acceleration entries threaded from the last previously
recorded velocity, and adds the direction-change count threaded from the
previous bearing. -/
theorem foldl_metricsStep (L : List (CapturePoint × CapturePoint))
    (s : MetricsState) :
    L.foldl (fun st pq => metricsStep st pq.1 pq.2) s =
      { totalLength := s.totalLength + (L.map (fun pq => distance pq.1 pq.2)).sum
        velocities := s.velocities ++ (vdtSeries L).map Prod.fst
        accelerations :=
          s.accelerations ++ accelFrom s.velocities.getLast? (vdtSeries L)
        directionChanges := s.directionChanges + dcountFrom s.prevAngle L
        prevAngle :=
          L.foldl (fun _ pq => some (angle pq.1 pq.2)) s.prevAngle } := by
  induction L generalizing s with
  | nil =>
    simp [vdtSeries, accelFrom, dcountFrom]
  | cons pq rest ih =>
    obtain ⟨p, q⟩ := pq
    rw [List.foldl_cons, ih]
    by_cases hdt : 0 < q.timestamp - p.timestamp
    · have hdt2 : p.timestamp < q.timestamp := sub_pos.mp hdt
      cases hlast : s.velocities.getLast? with
      | none =>
        have hsv : s.velocities = [] := by
          cases hv : s.velocities with
          | nil => rfl
          | cons x xs =>
            rw [hv, List.getLast?_cons] at hlast
            simp at hlast
        cases hpa : s.prevAngle with
        | none =>
          simp [metricsStep, hdt, hdt2, hsv, hpa, vdtSeries, accelFrom,
            dcountFrom, List.filterMap_cons, add_assoc]
        | some a0 =>
          simp [metricsStep, hdt, hdt2, hsv, hpa, vdtSeries, accelFrom,
            dcountFrom, List.filterMap_cons, add_assoc]
          split <;> split <;> omega
      | some vPrev =>
        cases hpa : s.prevAngle with
        | none =>
          simp [metricsStep, hdt, hdt2, hlast, hpa, vdtSeries, accelFrom,
            dcountFrom, List.filterMap_cons, List.getLast?_concat, add_assoc]
        | some a0 =>
          simp [metricsStep, hdt, hdt2, hlast, hpa, vdtSeries, accelFrom,
            dcountFrom, List.filterMap_cons, List.getLast?_concat, add_assoc]
          split <;> split <;> omega
    · have hdt2 : ¬ p.timestamp < q.timestamp := fun h => hdt (sub_pos.mpr h)
      cases hpa : s.prevAngle with
      | none =>
        simp [metricsStep, hdt, hdt2, hpa, vdtSeries, accelFrom, dcountFrom,
          List.filterMap_cons, add_assoc]
      | some a0 =>
        simp [metricsStep, hdt, hdt2, hpa, vdtSeries, accelFrom, dcountFrom,
          List.filterMap_cons, add_assoc]
        split <;> split <;> omega

/-- `computeStrokeMetrics` on a list of at least two points, expressed
through the declarative series. -/
theorem computeStrokeMetrics_spec (points : List CapturePoint)
    (h : 2 ≤ points.length) :
    computeStrokeMetrics points =
      { length := segLengthSum points
        duration := (points.getLastD default).timestamp -
          (points.headD default).timestamp
        avgVelocity := listMean (velocitySeries points)
        maxVelocity := listMax (velocitySeries points)
        avgAcceleration := listMean (accelSeries points)
        maxAcceleration := listMax (accelSeries points)
        directionChanges := dcountFrom none (segs points) } := by
  unfold computeStrokeMetrics
  rw [if_neg (by omega)]
  rw [foldl_metricsStep]
  simp [velocitySeries, accelSeries, segLengthSum]

/-- Evaluation: the segments of the right-angle example. -/
theorem segs_threePoints : segs threePoints = [(P0, P1), (P1, P2)] := rfl

/-- Evaluation: the first segment of the example has length 10. -/
theorem distance_P0_P1 : distance P0 P1 = 10 := by
  have h : distance P0 P1 = Real.sqrt 100 := by
    norm_num [distance, P0, P1]
  rw [h, show (100 : ℝ) = 10 ^ 2 by norm_num]
  exact Real.sqrt_sq (by norm_num)

/-- Evaluation: the second segment of the example has length 10. -/
theorem distance_P1_P2 : distance P1 P2 = 10 := by
  have h : distance P1 P2 = Real.sqrt 100 := by
    norm_num [distance, P1, P2]
  rw [h, show (100 : ℝ) = 10 ^ 2 by norm_num]
  exact Real.sqrt_sq (by norm_num)

/-- Evaluation: the first segment of the example points due east. -/
theorem angle_P0_P1 : angle P0 P1 = 0 := by
  norm_num [angle, atan2, P0, P1, Real.arctan_zero]

/-- Evaluation: the second segment of the example points due north. -/
theorem angle_P1_P2 : angle P1 P2 = Real.pi / 2 := by
  norm_num [angle, atan2, P1, P2]

/-- Evaluation: the example's 90° turn is one direction change. -/
theorem dcount_threePoints : dcountFrom none (segs threePoints) = 1 := by
  have hpi := Real.pi_pos
  rw [segs_threePoints]
  simp only [dcountFrom, angle_P0_P1, angle_P1_P2]
  rw [sub_zero, abs_of_nonneg (by linarith : (0 : ℝ) ≤ Real.pi / 2)]
  rw [if_neg (show ¬ Real.pi < Real.pi / 2 by linarith)]
  rw [if_pos (show Real.pi / 6 < Real.pi / 2 by linarith)]

/-- Evaluation: the example's total path length is 20. -/
theorem segLengthSum_threePoints : segLengthSum threePoints = 20 := by
  rw [segLengthSum, segs_threePoints]
  simp [distance_P0_P1, distance_P1_P2]
  norm_num

/-- **C3.** For every input list of fewer than 2 capture points (including
the empty list), `computeStrokeMetrics` returns the all-zero metrics
record.  The embedded function is total, so no error can be raised. -/
theorem computeStrokeMetrics_degenerate (points : List CapturePoint)
    (h : points.length < 2) :
    computeStrokeMetrics points =
      { length := 0, duration := 0, avgVelocity := 0, maxVelocity := 0,
        avgAcceleration := 0, maxAcceleration := 0, directionChanges := 0 } := by
  unfold computeStrokeMetrics
  rw [if_pos h]
  rfl

/-- Witness for C3 at the empty list and at a one-point list. -/
theorem computeStrokeMetrics_degenerate_witness :
    computeStrokeMetrics [] =
      { length := 0, duration := 0, avgVelocity := 0, maxVelocity := 0,
        avgAcceleration := 0, maxAcceleration := 0, directionChanges := 0 } ∧
    computeStrokeMetrics [P0] =
      { length := 0, duration := 0, avgVelocity := 0, maxVelocity := 0,
        avgAcceleration := 0, maxAcceleration := 0, directionChanges := 0 } :=
  ⟨computeStrokeMetrics_degenerate [] (by simp),
   computeStrokeMetrics_degenerate [P0] (by simp)⟩

/-- **C4.** On a list of at least two points, every segment with
non-positive time delta is excluded from the velocity series
(`velocitySeries` keeps exactly the positive-`dt` segments) and from the
acceleration series, while its Euclidean length still enters the total
length (`segLengthSum` ranges over all segments); the averages are the
arithmetic means of the non-empty series and `0` when the series is empty,
and the maxima are the series maxima (`listMax`, which is `0` on the empty
series). -/
theorem computeStrokeMetrics_series (points : List CapturePoint)
    (h : 2 ≤ points.length) :
    (computeStrokeMetrics points).length = segLengthSum points ∧
    ((computeStrokeMetrics points).avgVelocity =
      if (velocitySeries points).isEmpty then 0
      else (velocitySeries points).sum / (velocitySeries points).length) ∧
    (computeStrokeMetrics points).maxVelocity
      = listMax (velocitySeries points) ∧
    ((computeStrokeMetrics points).avgAcceleration =
      if (accelSeries points).isEmpty then 0
      else (accelSeries points).sum / (accelSeries points).length) ∧
    (computeStrokeMetrics points).maxAcceleration
      = listMax (accelSeries points) := by
  rw [computeStrokeMetrics_spec points h]
  exact ⟨rfl, rfl, rfl, rfl, rfl⟩

/-- Witness for C4 at the three-point example. -/
theorem computeStrokeMetrics_series_witness :
    (computeStrokeMetrics threePoints).length = segLengthSum threePoints :=
  (computeStrokeMetrics_series threePoints (by simp [threePoints])).1

/-- **C5.** On a list of at least two points, the direction-change count
is exactly `dcountFrom none` over the segments: consecutive bearings are
compared by absolute difference wrapped into `[0, π]` (a raw difference
above `π` becomes `2π` minus it), a change is counted exactly when the
wrapped difference exceeds `π/6`, and the first segment never counts.  In
particular the right-angle example P0=(0,0,t=0), P1=(10,0,t=10),
P2=(10,10,t=20) has exactly 1 direction change and length 20. -/
theorem computeStrokeMetrics_directionChanges (points : List CapturePoint)
    (h : 2 ≤ points.length) :
    (computeStrokeMetrics points).directionChanges
      = dcountFrom none (segs points) ∧
    (computeStrokeMetrics threePoints).directionChanges = 1 ∧
    (computeStrokeMetrics threePoints).length = 20 := by
  have h3 : (2 : ℕ) ≤ threePoints.length := by simp [threePoints]
  refine ⟨?_, ?_, ?_⟩
  · rw [computeStrokeMetrics_spec points h]
  · rw [computeStrokeMetrics_spec threePoints h3]
    exact dcount_threePoints
  · rw [computeStrokeMetrics_spec threePoints h3]
    exact segLengthSum_threePoints

/-- Witness for C5 at the three-point example. -/
theorem computeStrokeMetrics_directionChanges_witness :
    (computeStrokeMetrics threePoints).directionChanges
      = dcountFrom none (segs threePoints) :=
  (computeStrokeMetrics_directionChanges threePoints
    (by simp [threePoints])).1

/-! ## Session aggregation -/

/-- The `reduce((sum, s) => sum + f s, 0)` idiom as a mapped sum. -/
theorem foldl_add_map (l : List Stroke) (f : Stroke → ℝ) (a : ℝ) :
    l.foldl (fun acc s => acc + f s) a = a + (l.map f).sum := by
  induction l generalizing a with
  | nil => simp
  | cons hd tl ih => simp [ih, add_assoc]

/-- **C6.** For every session built from an ordered stroke list, the pause
list has length `max (strokeCount − 1) 0`, entry `i` of the pause list is
`strokes[i+1].startTime − strokes[i].endTime`, and `strokeCount` is the
length of the stroke list; the concrete two-stroke example with stroke A
ending at 100 and stroke B starting at 150 yields the pause list `[50]`. -/
theorem buildSession_pauses (st : CaptureState) (sid prompt : String)
    (w h endT : ℝ) :
    (st.buildSession sid prompt w h endT).pausesBetweenStrokes.length
        = max ((st.buildSession sid prompt w h endT).strokeCount - 1) 0 ∧
    (∀ i, i + 1 < st.strokes.length →
      (st.buildSession sid prompt w h endT).pausesBetweenStrokes.getD i 0
        = (st.strokes.getD (i + 1) default).startTime
            - (st.strokes.getD i default).endTime) ∧
    (st.buildSession sid prompt w h endT).strokeCount = st.strokes.length ∧
    (twoStrokeState.buildSession "s" "p" 500 375 0).pausesBetweenStrokes
      = [50] := by
  refine ⟨?_, ?_, rfl, ?_⟩
  · simp only [CaptureState.buildSession, List.length_map, List.length_zip,
      List.length_tail]
    omega
  · intro i hi
    have hlen : ((st.strokes.zip st.strokes.tail).map
        (fun ab => ab.2.startTime - ab.1.endTime)).length
          = st.strokes.length - 1 := by
      simp only [List.length_map, List.length_zip, List.length_tail]
      omega
    simp only [CaptureState.buildSession]
    rw [List.getD_eq_getElem _ _ (by rw [hlen]; omega)]
    rw [List.getD_eq_getElem _ _ (by omega : i + 1 < st.strokes.length)]
    rw [List.getD_eq_getElem _ _ (by omega : i < st.strokes.length)]
    simp [List.getElem_zip, List.getElem_tail]
  · simp [CaptureState.buildSession, twoStrokeState, emptyState, strokeA,
      strokeB]
    norm_num

/-- **C7.** The aggregated `totalPathLength` is the sum of the per-stroke
metric lengths, `avgVelocity` is the unweighted mean of the per-stroke
average velocities (a two-level average over strokes, not over points),
and the zero-stroke session is well formed: `strokeCount = 0`, empty pause
list, `totalPathLength = 0` and `avgVelocity = 0` (the embedded aggregator
is total, so it cannot error). -/
theorem buildSession_aggregates (st : CaptureState) (sid prompt : String)
    (w h endT : ℝ) :
    (st.buildSession sid prompt w h endT).totalPathLength
        = (st.strokes.map (fun s => s.metrics.length)).sum ∧
    (st.strokes ≠ [] →
      (st.buildSession sid prompt w h endT).avgVelocity
        = (st.strokes.map (fun s => s.metrics.avgVelocity)).sum
            / st.strokes.length) ∧
    (st.strokes = [] →
      (st.buildSession sid prompt w h endT).strokeCount = 0 ∧
      (st.buildSession sid prompt w h endT).pausesBetweenStrokes = [] ∧
      (st.buildSession sid prompt w h endT).totalPathLength = 0 ∧
      (st.buildSession sid prompt w h endT).avgVelocity = 0) := by
  refine ⟨?_, ?_, ?_⟩
  · simp only [CaptureState.buildSession]
    rw [foldl_add_map, zero_add]
  · intro hne
    simp only [CaptureState.buildSession, listMean]
    rw [if_neg (by simp [hne])]
    simp
  · intro he
    simp [CaptureState.buildSession, he, listMean]

/-- Witness for C6 at the two-stroke pause example. -/
theorem buildSession_pauses_witness :
    (twoStrokeState.buildSession "s" "p" 500 375 0).pausesBetweenStrokes.getD
        0 0
      = (twoStrokeState.strokes.getD 1 default).startTime
          - (twoStrokeState.strokes.getD 0 default).endTime :=
  (buildSession_pauses twoStrokeState "s" "p" 500 375 0).2.1 0
    (by simp [twoStrokeState, emptyState])

/-- Witness for C7 at the zero-stroke state and the two-stroke state. -/
theorem buildSession_aggregates_witness :
    (emptyState.buildSession "session-0" "Draw a star" 500 375 0).avgVelocity
        = 0 ∧
    (twoStrokeState.buildSession "s" "p" 500 375 0).totalPathLength
        = (twoStrokeState.strokes.map (fun s => s.metrics.length)).sum :=
  ⟨((buildSession_aggregates emptyState "session-0" "Draw a star"
        500 375 0).2.2 rfl).2.2.2,
   (buildSession_aggregates twoStrokeState "s" "p" 500 375 0).1⟩

/-! ## Stroke identifier invariants of the capture hook -/

/-- Every capture event preserves strictly increasing stroke ids that stay
below the id counter. -/
theorem applyEvent_inv (s : CaptureState) (e : CaptureEvent)
    (h1 : (s.strokes.map Stroke.id).Sorted (· < ·))
    (h2 : ∀ st ∈ s.strokes, st.id < s.strokeId) :
    ((applyEvent s e).strokes.map Stroke.id).Sorted (· < ·) ∧
      ∀ st ∈ (applyEvent s e).strokes, st.id < (applyEvent s e).strokeId := by
  cases e with
  | beginStroke => exact ⟨h1, h2⟩
  | addPoint p => exact ⟨h1, h2⟩
  | undo =>
    refine ⟨h1.sublist ((List.dropLast_sublist _).map _), ?_⟩
    intro st hst
    exact h2 st ((List.dropLast_sublist _).subset hst)
  | clear => simp [applyEvent, CaptureState.clear]
  | endStroke =>
    by_cases hlen : s.currentPoints.length < 2
    · simp only [applyEvent, CaptureState.endStroke, if_pos hlen]
      exact ⟨h1, h2⟩
    · simp only [applyEvent, CaptureState.endStroke, if_neg hlen]
      constructor
      · rw [List.map_append]
        refine List.pairwise_append.mpr ⟨h1, List.sorted_singleton _, ?_⟩
        intro a ha b hb
        obtain ⟨st, hst, rfl⟩ := List.mem_map.mp ha
        obtain rfl : b = s.strokeId := by simpa using hb
        exact h2 st hst
      · intro st hst
        rcases List.mem_append.mp hst with hmem | hnew
        · exact Nat.lt_succ_of_lt (h2 st hmem)
        · obtain rfl : st = _ := by simpa using hnew
          exact Nat.lt_succ_self _

/-- Running any event sequence preserves the id invariant. -/
theorem runEvents_inv (evs : List CaptureEvent) (s : CaptureState)
    (h1 : (s.strokes.map Stroke.id).Sorted (· < ·))
    (h2 : ∀ st ∈ s.strokes, st.id < s.strokeId) :
    ((runEvents s evs).strokes.map Stroke.id).Sorted (· < ·) ∧
      ∀ st ∈ (runEvents s evs).strokes,
        st.id < (runEvents s evs).strokeId := by
  induction evs generalizing s with
  | nil => exact ⟨h1, h2⟩
  | cons e rest ih =>
    obtain ⟨g1, g2⟩ := applyEvent_inv s e h1 h2
    exact ih (applyEvent s e) g1 g2

/-- **C8.** After `startSession`, any sequence of capture interactions
leaves the session's stroke ids strictly increasing (hence unique) and
below the id counter, which starts at 0; and a finalized gesture of fewer
than 2 points is discarded silently: `endStroke` leaves both the stroke
list and the id counter unchanged (and, being total, raises no error). -/
theorem stroke_ids_unique (s0 : CaptureState) (now nowWall : ℝ)
    (evs : List CaptureEvent) :
    ((runEvents (s0.startSession now nowWall) evs).strokes.map
        Stroke.id).Sorted (· < ·) ∧
    ((runEvents (s0.startSession now nowWall) evs).strokes.map
        Stroke.id).Nodup ∧
    (∀ st ∈ (runEvents (s0.startSession now nowWall) evs).strokes,
        st.id < (runEvents (s0.startSession now nowWall) evs).strokeId) ∧
    (s0.startSession now nowWall).strokeId = 0 ∧
    (∀ s : CaptureState, s.currentPoints.length < 2 →
      s.endStroke.strokes = s.strokes ∧
        s.endStroke.strokeId = s.strokeId) := by
  obtain ⟨g1, g2⟩ := runEvents_inv evs (s0.startSession now nowWall)
    (by simp [CaptureState.startSession]) (by simp [CaptureState.startSession])
  refine ⟨g1, g1.nodup, g2, rfl, ?_⟩
  intro s hs
  unfold CaptureState.endStroke
  rw [if_pos hs]
  exact ⟨rfl, rfl⟩

/-- Witness for C8: a one-point gesture is discarded silently. -/
theorem stroke_ids_unique_witness :
    oneptState.endStroke.strokes = oneptState.strokes ∧
      oneptState.endStroke.strokeId = oneptState.strokeId :=
  (stroke_ids_unique emptyState 0 0 []).2.2.2.2 oneptState
    (by simp [oneptState, emptyState])

/-! ## The combined score -/

/-- The accumulator loop of `getCombinedScore` computes the filtered sums
over the eligible results. -/
theorem foldl_scoreWeight (results : List (String × ScoringResult))
    (a b : ℝ) :
    results.foldl
      (fun (acc : ℝ × ℝ) kv =>
        if 0 ≤ kv.2.score then
          (acc.1 + kv.2.score * kv.2.confidence, acc.2 + kv.2.confidence)
        else acc)
      (a, b)
      = (a + combinedNumerator results, b + combinedWeight results) := by
  induction results generalizing a b with
  | nil => simp [combinedNumerator, combinedWeight, eligible]
  | cons kv rest ih =>
    by_cases hs : 0 ≤ kv.2.score
    · rw [List.foldl_cons, if_pos hs, ih]
      simp only [combinedNumerator, combinedWeight, eligible, List.map_cons,
        List.filter_cons, decide_eq_true_eq, hs, if_pos, List.sum_cons]
      rw [Prod.mk.injEq]
      constructor <;> ring
    · rw [List.foldl_cons, if_neg hs, ih]
      simp only [combinedNumerator, combinedWeight, eligible, List.map_cons,
        List.filter_cons, decide_eq_true_eq, hs, if_neg, List.sum_cons]
      rfl

/-- `getCombinedScore` as a conditional over the declarative sums. -/
theorem getCombinedScore_eq (algorithms : List ScoringAlgorithm)
    (session : CaptchaSession) :
    ScoringEngine.getCombinedScore algorithms session =
      if (ScoringEngine.evaluate algorithms session).length = 0 then -1
      else if 0 < combinedWeight (ScoringEngine.evaluate algorithms session)
        then combinedNumerator (ScoringEngine.evaluate algorithms session)
          / combinedWeight (ScoringEngine.evaluate algorithms session)
      else -1 := by
  simp only [ScoringEngine.getCombinedScore]
  rw [foldl_scoreWeight, zero_add, zero_add]

/-- Evaluation: the result map of the two concrete algorithms. -/
theorem evaluate_algoA_algoB (session : CaptchaSession) :
    ScoringEngine.evaluate [algoA, algoB] session
      = [("A", { score := 0.2, confidence := 1.0, signals := [],
                 details := none }),
         ("B", { score := 0.8, confidence := 0.5, signals := [],
                 details := none })] := by
  simp [ScoringEngine.evaluate, mapSet, runAlgorithm, algoA, algoB]

/-- **C1.** `getCombinedScore` is the confidence-weighted mean
`Σ(scoreᵢ·confidenceᵢ) / Σ confidenceᵢ` over exactly the results of
`evaluate` whose score is ≥ 0 (`combinedNumerator`/`combinedWeight` over
`eligible`); it is −1 when no algorithms are registered and when the total
weight over the eligible results is 0; and with exactly the two algorithms
returning (0.2, 1.0) and (0.8, 0.5) it returns 0.4. -/
theorem getCombinedScore_spec (algorithms : List ScoringAlgorithm)
    (session : CaptchaSession) :
    (algorithms = [] → ScoringEngine.getCombinedScore algorithms session = -1) ∧
    (combinedWeight (ScoringEngine.evaluate algorithms session) = 0 →
      ScoringEngine.getCombinedScore algorithms session = -1) ∧
    (0 < combinedWeight (ScoringEngine.evaluate algorithms session) →
      ScoringEngine.getCombinedScore algorithms session
        = combinedNumerator (ScoringEngine.evaluate algorithms session)
          / combinedWeight (ScoringEngine.evaluate algorithms session)) ∧
    ScoringEngine.getCombinedScore [algoA, algoB] session = 0.4 := by
  refine ⟨?_, ?_, ?_, ?_⟩
  · intro he
    subst he
    rfl
  · intro hw
    rw [getCombinedScore_eq]
    by_cases hlen : (ScoringEngine.evaluate algorithms session).length = 0
    · rw [if_pos hlen]
    · rw [if_neg hlen, if_neg (by rw [hw]; exact lt_irrefl 0)]
  · intro hw
    rw [getCombinedScore_eq]
    have hlen : (ScoringEngine.evaluate algorithms session).length ≠ 0 := by
      intro h0
      rw [List.length_eq_zero.mp h0] at hw
      simp [combinedWeight, eligible] at hw
    rw [if_neg hlen, if_pos hw]
  · rw [getCombinedScore_eq, evaluate_algoA_algoB]
    have hw : combinedWeight
        [("A", { score := 0.2, confidence := 1.0, signals := [],
                 details := none }),
         ("B", { score := 0.8, confidence := 0.5, signals := [],
                 details := none })] = 1.5 := by
      norm_num [combinedWeight, eligible]
    have hn : combinedNumerator
        [("A", { score := 0.2, confidence := 1.0, signals := [],
                 details := none }),
         ("B", { score := 0.8, confidence := 0.5, signals := [],
                 details := none })] = 0.6 := by
      norm_num [combinedNumerator, eligible]
    rw [if_neg (by norm_num), hw, hn, if_pos (by norm_num)]
    norm_num

/-- Witness for C1: no registered algorithms yields −1. -/
theorem getCombinedScore_spec_witness :
    ScoringEngine.getCombinedScore [] sampleSession = -1 :=
  (getCombinedScore_spec [] sampleSession).1 rfl

/-- A value stored by `mapSet` is an old value of the map or the new one. -/
theorem mem_mapSet (m : List (String × ScoringResult)) (k : String)
    (v : ScoringResult) :
    ∀ kv ∈ mapSet m k v, kv ∈ m ∨ kv.2 = v := by
  intro kv hkv
  unfold mapSet at hkv
  by_cases hany : (m.any fun kv0 => kv0.1 == k) = true
  · rw [if_pos hany] at hkv
    obtain ⟨kv0, hkv0, heq⟩ := List.mem_map.mp hkv
    by_cases h0 : (kv0.1 == k) = true
    · right
      rw [if_pos h0] at heq
      rw [← heq]
    · left
      rw [if_neg h0] at heq
      rw [← heq]
      exact hkv0
  · rw [if_neg hany] at hkv
    rcases List.mem_append.mp hkv with h | h
    · left
      exact h
    · right
      obtain rfl : kv = (k, v) := by simpa using h
      rfl

/-- Every value of the result map built by `evaluate` comes from
`runAlgorithm` on some registered algorithm. -/
theorem evaluate_values_aux (session : CaptchaSession)
    (P : ScoringResult → Prop) :
    ∀ (algos : List ScoringAlgorithm) (acc : List (String × ScoringResult)),
      (∀ kv ∈ acc, P kv.2) →
      (∀ a ∈ algos, P (runAlgorithm a session)) →
      ∀ kv ∈ algos.foldl
          (fun r a => mapSet r a.name (runAlgorithm a session)) acc,
        P kv.2 := by
  intro algos
  induction algos with
  | nil =>
    intro acc hacc _ kv hkv
    exact hacc kv hkv
  | cons a rest ih =>
    intro acc hacc halgo kv hkv
    rw [List.foldl_cons] at hkv
    refine ih (mapSet acc a.name (runAlgorithm a session)) ?_ ?_ kv hkv
    · intro kv0 hkv0
      rcases mem_mapSet _ _ _ kv0 hkv0 with h | h
      · exact hacc kv0 h
      · rw [h]
        exact halgo a (List.mem_cons_self a rest)
    · intro b hb
      exact halgo b (List.mem_cons_of_mem a hb)

/-- Over well-formed results, the weighted score sum is nonnegative and at
most the total weight. -/
theorem numerator_le_weight (results : List (String × ScoringResult))
    (h : ∀ kv ∈ results, BoundedResult kv.2) :
    0 ≤ combinedNumerator results ∧
      combinedNumerator results ≤ combinedWeight results := by
  induction results with
  | nil => simp [combinedNumerator, combinedWeight, eligible]
  | cons kv rest ih =>
    have hkv := h kv (List.mem_cons_self kv rest)
    have hrest := ih (fun kv0 h0 => h kv0 (List.mem_cons_of_mem kv h0))
    by_cases hs : 0 ≤ kv.2.score
    · have hs1 : kv.2.score ≤ 1 := by
        rcases hkv.1 with h1 | h1
        · rw [h1] at hs
          linarith
        · exact h1.2
      have e1 : combinedNumerator (kv :: rest)
          = kv.2.score * kv.2.confidence + combinedNumerator rest := by
        simp [combinedNumerator, eligible, hs]
      have e2 : combinedWeight (kv :: rest)
          = kv.2.confidence + combinedWeight rest := by
        simp [combinedWeight, eligible, hs]
      rw [e1, e2]
      constructor
      · exact add_nonneg (mul_nonneg hs hkv.2.1) hrest.1
      · exact add_le_add (mul_le_of_le_one_left hkv.2.1 hs1) hrest.2
    · have e1 : combinedNumerator (kv :: rest) = combinedNumerator rest := by
        simp [combinedNumerator, eligible, hs]
      have e2 : combinedWeight (kv :: rest) = combinedWeight rest := by
        simp [combinedWeight, eligible, hs]
      rw [e1, e2]
      exact hrest

/-- **C9.** If every registered algorithm that returns normally returns a
score in [0,1] or the −1 sentinel and a confidence in [0,1]
(`BoundedResult`), then `getCombinedScore` returns −1 or a value in [0,1];
algorithms that throw contribute the bounded sentinel (−1, 0) and cannot
escape the range either. -/
theorem getCombinedScore_bounded (algorithms : List ScoringAlgorithm)
    (session : CaptchaSession)
    (h : ∀ a ∈ algorithms, ∀ r, a.score session = Except.ok r →
      BoundedResult r) :
    ScoringEngine.getCombinedScore algorithms session = -1 ∨
      (0 ≤ ScoringEngine.getCombinedScore algorithms session ∧
        ScoringEngine.getCombinedScore algorithms session ≤ 1) := by
  have hvals : ∀ kv ∈ ScoringEngine.evaluate algorithms session,
      BoundedResult kv.2 := by
    refine evaluate_values_aux session BoundedResult algorithms []
      (by simp) ?_
    intro a ha
    unfold runAlgorithm
    cases hsc : a.score session with
    | ok r => exact h a ha r hsc
    | error e => exact ⟨Or.inl rfl, le_refl 0, by norm_num⟩
  obtain ⟨hn0, hnw⟩ := numerator_le_weight _ hvals
  rw [getCombinedScore_eq]
  by_cases hlen : (ScoringEngine.evaluate algorithms session).length = 0
  · rw [if_pos hlen]
    left
    rfl
  · rw [if_neg hlen]
    by_cases hw : 0 < combinedWeight (ScoringEngine.evaluate algorithms session)
    · rw [if_pos hw]
      right
      exact ⟨div_nonneg hn0 (le_of_lt hw), (div_le_one hw).mpr hnw⟩
    · rw [if_neg hw]
      left
      rfl

/-- Witness for C9 with one valid and one throwing algorithm. -/
theorem getCombinedScore_bounded_witness :
    ScoringEngine.getCombinedScore [algoA, algoFail] sampleSession = -1 ∨
      (0 ≤ ScoringEngine.getCombinedScore [algoA, algoFail] sampleSession ∧
        ScoringEngine.getCombinedScore [algoA, algoFail] sampleSession ≤ 1) := by
  refine getCombinedScore_bounded [algoA, algoFail] sampleSession ?_
  intro a ha r hr
  rcases (by simpa using ha : a = algoA ∨ a = algoFail) with rfl | rfl
  · simp only [algoA, Except.ok.injEq] at hr
    rw [← hr]
    refine ⟨Or.inr ⟨by norm_num, by norm_num⟩, by norm_num, by norm_num⟩
  · simp [algoFail] at hr

/-- With pairwise-distinct names, the `evaluate` fold never overwrites:
the result map is the list of per-algorithm results in registration
order. -/
theorem evaluate_nodup_aux (session : CaptchaSession) :
    ∀ (algos : List ScoringAlgorithm) (acc : List (String × ScoringResult)),
      (algos.map ScoringAlgorithm.name).Nodup →
      (∀ a ∈ algos, ∀ kv ∈ acc, kv.1 ≠ a.name) →
      algos.foldl (fun r a => mapSet r a.name (runAlgorithm a session)) acc
        = acc ++ algos.map (fun a => (a.name, runAlgorithm a session)) := by
  intro algos
  induction algos with
  | nil =>
    intro acc _ _
    simp
  | cons a rest ih =>
    intro acc hnodup hdisj
    rw [List.foldl_cons]
    have hset : mapSet acc a.name (runAlgorithm a session)
        = acc ++ [(a.name, runAlgorithm a session)] := by
      unfold mapSet
      rw [if_neg]
      intro hany
      obtain ⟨kv, hkv, hbeq⟩ := List.any_eq_true.mp hany
      exact hdisj a (List.mem_cons_self a rest) kv hkv (by simpa using hbeq)
    rw [hset]
    rw [ih (acc ++ [(a.name, runAlgorithm a session)])
      (List.nodup_cons.mp hnodup).2 ?_]
    · simp
    · intro b hb kv hkv
      rcases List.mem_append.mp hkv with hmem | hone
      · exact hdisj b (List.mem_cons_of_mem a hb) kv hmem
      · obtain rfl : kv = (a.name, runAlgorithm a session) := by simpa using hone
        intro heq
        apply (List.nodup_cons.mp hnodup).1
        have hname : a.name = b.name := heq
        rw [hname]
        exact List.mem_map_of_mem ScoringAlgorithm.name hb

/-- `evaluate` under distinct names, in closed form. -/
theorem evaluate_nodup (algorithms : List ScoringAlgorithm)
    (session : CaptchaSession)
    (h : (algorithms.map ScoringAlgorithm.name).Nodup) :
    ScoringEngine.evaluate algorithms session
      = algorithms.map (fun a => (a.name, runAlgorithm a session)) := by
  unfold ScoringEngine.evaluate
  rw [evaluate_nodup_aux session algorithms [] h (by simp)]
  simp

/-- Looking up a registered algorithm's name in the per-algorithm result
list finds that algorithm's result, given distinct names. -/
theorem lookup_map_ofMem (session : CaptchaSession) (a : ScoringAlgorithm) :
    ∀ algos : List ScoringAlgorithm,
      (algos.map ScoringAlgorithm.name).Nodup → a ∈ algos →
      (algos.map (fun b => (b.name, runAlgorithm b session))).lookup a.name
        = some (runAlgorithm a session) := by
  intro algos
  induction algos with
  | nil =>
    intro _ ha
    cases ha
  | cons b rest ih =>
    intro hnodup ha
    rw [List.map_cons]
    rcases List.mem_cons.mp ha with rfl | hmem
    · simp [List.lookup]
    · have hb : (a.name == b.name) = false := by
        refine beq_eq_false_iff_ne.mpr ?_
        intro heq
        exact (List.nodup_cons.mp hnodup).1
          (heq ▸ List.mem_map_of_mem ScoringAlgorithm.name hmem)
      rw [List.lookup, hb]
      exact ih (List.nodup_cons.mp hnodup).2 hmem

/-- **C2.** With distinct registered names, `evaluate` returns a map with
exactly one entry per registered algorithm name (the key list is the name
list, in registration order); a throwing algorithm's entry is the
synthetic result (score −1, confidence 0, no signals, details naming the
failure), while every normally-returning algorithm's entry is its own
result — so one failure aborts no other evaluation; and the embedded
`evaluate` is total, so the exception never propagates. -/
theorem evaluate_isolates_failures (algorithms : List ScoringAlgorithm)
    (session : CaptchaSession)
    (h : (algorithms.map ScoringAlgorithm.name).Nodup) :
    ((ScoringEngine.evaluate algorithms session).map Prod.fst
        = algorithms.map ScoringAlgorithm.name) ∧
    (∀ a ∈ algorithms, ∀ e, a.score session = Except.error e →
      (ScoringEngine.evaluate algorithms session).lookup a.name
        = some { score := -1, confidence := 0, signals := [],
                 details := some ("Error: " ++ e) }) ∧
    (∀ a ∈ algorithms, ∀ r, a.score session = Except.ok r →
      (ScoringEngine.evaluate algorithms session).lookup a.name
        = some r) := by
  rw [evaluate_nodup algorithms session h]
  refine ⟨?_, ?_, ?_⟩
  · rw [List.map_map]
    rfl
  · intro a ha e he
    rw [lookup_map_ofMem session a algorithms h ha]
    unfold runAlgorithm
    rw [he]
  · intro a ha r hr
    rw [lookup_map_ofMem session a algorithms h ha]
    unfold runAlgorithm
    rw [hr]

/-- Witness for C2: a throwing algorithm next to a working one. -/
theorem evaluate_isolates_failures_witness :
    (ScoringEngine.evaluate [algoFail, algoA] sampleSession).lookup
        algoFail.name
      = some { score := -1, confidence := 0, signals := [],
               details := some ("Error: " ++ "boom") } :=
  (evaluate_isolates_failures [algoFail, algoA] sampleSession
      (by simp [algoFail, algoA])).2.1 algoFail
    (List.mem_cons_self _ _) "boom" rfl

/-- **C10.** When two algorithms `a` and `b` share a name and a third
algorithm `c` with a different name sits between them, `evaluate` over
`[a, c, b]` produces only one entry under the shared name: it holds the
result of the last-registered algorithm `b`, but sits at the position of
the first registration (before `c`'s entry). -/
theorem evaluate_duplicate_name (a b c : ScoringAlgorithm)
    (session : CaptchaSession) (hab : a.name = b.name)
    (hc : c.name ≠ a.name) :
    ScoringEngine.evaluate [a, c, b] session
      = [(a.name, runAlgorithm b session),
         (c.name, runAlgorithm c session)] := by
  unfold ScoringEngine.evaluate
  simp only [List.foldl_cons, List.foldl_nil]
  have h1 : mapSet [] a.name (runAlgorithm a session)
      = [(a.name, runAlgorithm a session)] := by
    simp [mapSet]
  rw [h1]
  have hac : (a.name == c.name) = false :=
    beq_eq_false_iff_ne.mpr (Ne.symm hc)
  have h2 : mapSet [(a.name, runAlgorithm a session)] c.name
        (runAlgorithm c session)
      = [(a.name, runAlgorithm a session),
         (c.name, runAlgorithm c session)] := by
    unfold mapSet
    rw [if_neg (by simp [hac])]
    rfl
  rw [h2]
  have hba : (a.name == b.name) = true := beq_iff_eq.mpr hab
  have hcb : (c.name == b.name) = false :=
    beq_eq_false_iff_ne.mpr (hab ▸ hc)
  unfold mapSet
  rw [if_pos (by simp [hba])]
  simp [hba, hcb, hab]
  exact fun heq => absurd heq (beq_eq_false_iff_ne.mp hcb)

/-- Witness for C10 with two concrete algorithms named "dup". -/
theorem evaluate_duplicate_name_witness :
    ScoringEngine.evaluate [dupA, algoA, dupB] sampleSession
      = [(dupA.name, runAlgorithm dupB sampleSession),
         (algoA.name, runAlgorithm algoA sampleSession)] :=
  evaluate_duplicate_name dupA dupB algoA sampleSession rfl
    (by simp [algoA, dupA])
